import Mathlib

/-!
Shallow embedding of the embedding-service core of the repository
`spaceguide-ai-backend` (directory `src/ai-embedding-service`):

* `app/services/model_manager.py` — `ModelManager`: a bounded cache of
  loaded models, keyed by name, held in two Python dicts (`models`,
  `model_info`) whose insertion order determines eviction order.
* `app/services/embedding_service.py` — `EmbeddingService`: model-name
  mapping (`_map_model_name`), fallback-to-default on load failure,
  character-based truncation, and chunked batch embedding.

Python dicts are modelled as ordered association lists (`alookup`,
`dictInsert`, `dictErase`): insertion of a fresh key appends at the end,
assignment to an existing key updates in place, deletion removes the
entry and keeps the order of the rest — exactly CPython dict semantics.

The external model provider (`sentence_transformers.SentenceTransformer`)
is modelled as a parameter `loader : String → String → Option Model`
taking the model name and the device: `none` models the constructor (or a
required import) raising, `some m` a successful construction of a handle
whose dimension and maximum sequence length queries are total, matching
the collaborator interface in the spec. `model.encode` is modelled as a
parameter `enc : Model → Bool → String → List V` applied to each text
(the provider encodes a batch pointwise, preserving order).
-/

/-- Handle to a loaded model instance: an identity plus the two metadata
queries (`get_sentence_embedding_dimension`, `max_seq_length`). -/
structure Model where
  id : Nat
  dims : Nat
  maxSeq : Nat
  deriving DecidableEq, Repr

/-- Entry of `ModelManager.model_info` (model_manager.py lines 92–97). -/
structure ModelInfo where
  name : String
  dimensions : Nat
  max_sequence_length : Nat
  device : String
  deriving DecidableEq, Repr

/-- Lookup in an ordered association list (Python `d[k]` / `k in d`). -/
def alookup {α : Type} : List (String × α) → String → Option α
  | [], _ => none
  | (k, v) :: t, k2 => if k = k2 then some v else alookup t k2

/-- Python dict assignment `d[k] = v`: update in place when the key is
present, append at the end when it is fresh. -/
def dictInsert {α : Type} : List (String × α) → String → α → List (String × α)
  | [], k, v => [(k, v)]
  | (k0, v0) :: t, k, v =>
    if k0 = k then (k0, v) :: t else (k0, v0) :: dictInsert t k v

/-- Python dict deletion `del d[k]` (no-op when the key is absent, which
also models the guarded `if k in d: del d[k]`). -/
def dictErase {α : Type} : List (String × α) → String → List (String × α)
  | [], _ => []
  | (k0, v0) :: t, k =>
    if k0 = k then dictErase t k else (k0, v0) :: dictErase t k

/-- Keys of an ordered association list, in order (Python `list(d.keys())`). -/
def keysOf {α : Type} (l : List (String × α)) : List String :=
  l.map Prod.fst

/-- External model provider: name and device to an optional handle. -/
abbrev Loader := String → String → Option Model

/-- Typed failures surfaced by the core (spec section 7 taxonomy): an
empty batch is a validation failure; a failed model load carries the name
of the model that could not be loaded. -/
inductive SvcErr where
  | validationFailure
  | loadFailure (name : String)
  deriving DecidableEq, Repr

/-- State of `ModelManager` (model_manager.py lines 13–17): the two
ordered dicts, the configured capacity, and the mutable device field. -/
structure ModelManager where
  models : List (String × Model)
  model_info : List (String × ModelInfo)
  max_cache_size : Nat
  device : String
  deriving Repr

/-- Fresh manager as built by `ModelManager.__init__`. -/
def initManager (capacity : Nat) (device : String) : ModelManager :=
  { models := [], model_info := [], max_cache_size := capacity, device := device }

/-- Device downgrade check of model_manager.py lines 81–83: cuda requested
but unavailable falls back to cpu (a persistent state change). -/
def effDevice (device : String) (cuda_available : Bool) : String :=
  if device = "cuda" && !cuda_available then "cpu" else device

/-- Function `ModelManager._cleanup_cache` (lines 115–123): remove the first
inserted key from `models`, and from `model_info` when present there. -/
def cleanup_cache (mm : ModelManager) : ModelManager :=
  match mm.models with
  | [] => mm
  | (oldest, _) :: _ =>
    { mm with
      models := dictErase mm.models oldest
      model_info := dictErase mm.model_info oldest }

/-- Function `ModelManager.load_model` (lines 42–113): downgrade the device
if needed, construct the handle via the provider (propagating failure with
the cache untouched), cache handle and metadata, then evict the oldest
entry when the cache exceeds capacity. Returns the result together with
the resulting manager state. -/
def load_model (loader : Loader) (cuda : Bool) (mm : ModelManager)
    (name : String) : Except SvcErr Model × ModelManager :=
  let dev := effDevice mm.device cuda
  let mm1 : ModelManager := { mm with device := dev }
  match loader name dev with
  | none => (.error (.loadFailure name), mm1)
  | some model =>
    let mm2 : ModelManager :=
      { mm1 with
        models := dictInsert mm1.models name model
        model_info := dictInsert mm1.model_info name
          ⟨name, model.dims, model.maxSeq, dev⟩ }
    let mm3 := if mm2.models.length > mm2.max_cache_size then cleanup_cache mm2 else mm2
    (.ok model, mm3)

/-- Function `ModelManager.get_model` (lines 19–40): default the name when
absent or empty (Python `model_name or settings.EMBEDDING_MODEL`), return
the cached handle on a hit, otherwise delegate to `load_model`. -/
def get_model (loader : Loader) (cuda : Bool) (default : String)
    (mm : ModelManager) (name? : Option String) : Except SvcErr Model × ModelManager :=
  let name := match name? with
    | none => default
    | some n => if n = "" then default else n
  match alookup mm.models name with
  | some m => (.ok m, mm)
  | none => load_model loader cuda mm name

/-- Function `ModelManager.unload_model` (lines 138–154): remove the entry
when present and report whether anything was removed. -/
def unload_model (mm : ModelManager) (name : String) : Bool × ModelManager :=
  if (alookup mm.models name).isSome then
    (true,
      { mm with
        models := dictErase mm.models name
        model_info := dictErase mm.model_info name })
  else (false, mm)

/-- Fold of `get_model` over a sequence of requests, threading the manager
state and discarding results. -/
def runGets (loader : Loader) (cuda : Bool) (default : String)
    (mm : ModelManager) (reqs : List (Option String)) : ModelManager :=
  reqs.foldl (fun s r => (get_model loader cuda default s r).2) mm

/-- Configuration of `EmbeddingService.__init__` (embedding_service.py
lines 15–18), read from settings. -/
structure SvcConfig where
  default_model_name : String
  batch_size : Nat
  max_text_length : Nat
  deriving Repr

/-- Substring patterns recognizing already-canonical sentence-transformers
names (embedding_service.py lines 56–58). -/
def canonical_patterns : List String :=
  ["all-minilm", "all-mpnet", "paraphrase", "sentence-transformers"]

/-- Static table `self.model_name_map` (embedding_service.py lines 26–31). -/
def model_name_map : List (String × String) :=
  [("text-embedding-3-small", "all-MiniLM-L6-v2"),
   ("text-embedding-3-large", "all-mpnet-base-v2"),
   ("text-embedding-ada-002", "all-MiniLM-L6-v2"),
   ("text-embedding", "all-MiniLM-L6-v2")]

/-- Python `s.lower()`: lowercase every character (the model names involved
are ASCII, where `Char.toLower` agrees with Python). -/
def lowerStr (s : String) : String :=
  ⟨s.data.map Char.toLower⟩

/-- Check that the first list starts the second (helper for the Python
substring operator). -/
def leadsWith : List Char → List Char → Bool
  | [], _ => true
  | _ :: _, [] => false
  | a :: p, b :: s => a = b && leadsWith p s

/-- Python substring operator `p in s`, on character lists: `p` occurs
contiguously somewhere in `s`. -/
def hasSub (p : List Char) : List Char → Bool
  | [] => p.isEmpty
  | b :: s => leadsWith p (b :: s) || hasSub p s

/-- Python `pattern in model_name.lower()` for any of the canonical
patterns: substring containment on the lowercased name. -/
def containsPattern (name : String) : Bool :=
  canonical_patterns.any (fun p => hasSub p.toList (lowerStr name).toList)

/-- Function `EmbeddingService._map_model_name` (lines 41–73): absent or
empty input resolves to the default; a name containing a canonical pattern
passes through; a key of the static table (lowercased) maps to its value;
anything else passes through unchanged. -/
def map_model_name (default_model_name : String) (name? : Option String) : String :=
  match name? with
  | none => default_model_name
  | some name =>
    if name = "" then default_model_name
    else if containsPattern name then name
    else
      match alookup model_name_map (lowerStr name) with
      | some mapped => mapped
      | none => name

/-- Shared resolution-plus-fallback step of `generate_embedding` (lines
92–109) and `generate_embeddings_batch` (lines 154–171): map the name, try
to get the model; on failure retry once with the default model unless the
mapped name already is the default; report the name actually used. -/
def resolve_model (loader : Loader) (cuda : Bool) (cfg : SvcConfig)
    (mm : ModelManager) (name? : Option String) :
    Except SvcErr (Model × String) × ModelManager :=
  let mapped := map_model_name cfg.default_model_name name?
  match get_model loader cuda cfg.default_model_name mm (some mapped) with
  | (.ok m, mm1) => (.ok (m, mapped), mm1)
  | (.error e, mm1) =>
    if mapped = cfg.default_model_name then (.error e, mm1)
    else
      match get_model loader cuda cfg.default_model_name mm1
          (some cfg.default_model_name) with
      | (.ok m, mm2) => (.ok (m, cfg.default_model_name), mm2)
      | (.error e2, mm2) => (.error e2, mm2)

/-- Truncation step of embedding_service.py lines 111–114 and 173–180: a
text longer than the configured maximum is cut to its first
`max_text_length` characters, shorter texts pass unmodified. -/
def truncate_text (maxLen : Nat) (t : String) : String :=
  if t.length > maxLen then t.take maxLen else t

/-- Function `EmbeddingService.generate_embedding` (lines 75–132): resolve
the model with fallback, truncate the text, encode it, and return the
vector, the resolved name and the dimension count. -/
def generate_embedding {V : Type} (loader : Loader) (cuda : Bool)
    (enc : Model → Bool → String → List V) (cfg : SvcConfig)
    (mm : ModelManager) (text : String) (name? : Option String)
    (normalize : Bool) :
    Except SvcErr (List V × String × Nat) × ModelManager :=
  match resolve_model loader cuda cfg mm name? with
  | (.error e, mm1) => (.error e, mm1)
  | (.ok (m, resolved), mm1) =>
    let t := truncate_text cfg.max_text_length text
    let v := enc m normalize t
    (.ok (v, resolved, v.length), mm1)

/-- Structural worker for the chunking loop: the fuel only bounds the
number of iterations (it starts at the list length, which never runs out
when the step `bs` is positive). -/
def chunkAux {α : Type} (bs : Nat) : Nat → List α → List (List α)
  | _, [] => []
  | 0, _ :: _ => []
  | fuel + 1, x :: xs => (x :: xs).take bs :: chunkAux bs fuel ((x :: xs).drop bs)

/-- Chunking loop of embedding_service.py lines 186–196 (Python
`for i in range(0, len(texts), batch_size)` with slices
`texts[i:i+batch_size]`): texts taken `batch_size` at a time, in order. -/
def chunkList {α : Type} (bs : Nat) (l : List α) : List (List α) :=
  chunkAux bs l.length l

/-- Function `EmbeddingService.generate_embeddings_batch` (lines 134–210):
reject an empty list, resolve the model with fallback, truncate each text,
encode chunk by chunk concatenating the results, and take the dimension
count from the first vector (0 when there is none). -/
def generate_embeddings_batch {V : Type} (loader : Loader) (cuda : Bool)
    (enc : Model → Bool → String → List V) (cfg : SvcConfig)
    (mm : ModelManager) (texts : List String) (name? : Option String)
    (normalize : Bool) :
    Except SvcErr (List (List V) × String × Nat) × ModelManager :=
  if texts.isEmpty then (.error .validationFailure, mm)
  else
    match resolve_model loader cuda cfg mm name? with
    | (.error e, mm1) => (.error e, mm1)
    | (.ok (m, resolved), mm1) =>
      let processed := texts.map (truncate_text cfg.max_text_length)
      let all := ((chunkList cfg.batch_size processed).map
        (fun b => b.map (enc m normalize))).flatten
      let dims := match all with
        | [] => 0
        | v :: _ => v.length
      (.ok (all, resolved, dims), mm1)

/-! Lemmas about the ordered-dict operations. -/

theorem alookup_eq_none {α : Type} (l : List (String × α)) (k : String) :
    alookup l k = none ↔ k ∉ keysOf l := by
  induction l with
  | nil => simp [alookup, keysOf]
  | cons p t ih =>
    obtain ⟨k0, v0⟩ := p
    simp only [alookup, keysOf, List.map_cons, List.mem_cons]
    by_cases h : k0 = k
    · subst h
      simp
    · simp only [if_neg h, ih, keysOf]
      constructor
      · intro hk hor
        rcases hor with h1 | h1
        · exact h h1.symm
        · exact hk h1
      · intro hk
        exact fun h1 => hk (Or.inr h1)

theorem alookup_some_mem {α : Type} {l : List (String × α)} {k : String} {v : α}
    (h : alookup l k = some v) : k ∈ keysOf l := by
  by_contra hk
  rw [(alookup_eq_none l k).mpr hk] at h
  simp at h

theorem alookup_dictInsert_self {α : Type} (l : List (String × α)) (k : String) (v : α) :
    alookup (dictInsert l k v) k = some v := by
  induction l with
  | nil => simp [dictInsert, alookup]
  | cons p t ih =>
    obtain ⟨k0, v0⟩ := p
    by_cases h : k0 = k <;> simp [dictInsert, alookup, h, ih]

theorem alookup_dictInsert_ne {α : Type} (l : List (String × α)) (k j : String) (v : α)
    (h : j ≠ k) : alookup (dictInsert l k v) j = alookup l j := by
  induction l with
  | nil => simp [dictInsert, alookup, Ne.symm h]
  | cons p t ih =>
    obtain ⟨k0, v0⟩ := p
    by_cases h0 : k0 = k
    · subst h0
      simp [dictInsert, alookup, Ne.symm h]
    · simp [dictInsert, alookup, h0, ih]

theorem alookup_dictErase_self {α : Type} (l : List (String × α)) (k : String) :
    alookup (dictErase l k) k = none := by
  induction l with
  | nil => simp [dictErase, alookup]
  | cons p t ih =>
    obtain ⟨k0, v0⟩ := p
    by_cases h : k0 = k <;> simp [dictErase, alookup, h, ih]

theorem alookup_dictErase_ne {α : Type} (l : List (String × α)) (k j : String)
    (h : j ≠ k) : alookup (dictErase l k) j = alookup l j := by
  induction l with
  | nil => simp [dictErase, alookup]
  | cons p t ih =>
    obtain ⟨k0, v0⟩ := p
    by_cases h0 : k0 = k
    · subst h0
      simp [dictErase, alookup, ih, Ne.symm h]
    · simp [dictErase, alookup, h0, ih]

theorem keysOf_dictInsert_of_none {α : Type} (l : List (String × α)) (k : String) (v : α)
    (h : alookup l k = none) : keysOf (dictInsert l k v) = keysOf l ++ [k] := by
  induction l with
  | nil => simp [dictInsert, keysOf]
  | cons p t ih =>
    obtain ⟨k0, v0⟩ := p
    simp only [alookup] at h
    by_cases h0 : k0 = k
    · simp [h0] at h
    · simp only [if_neg h0] at h
      have ih2 := ih h
      simp only [keysOf] at ih2 ⊢
      simp [dictInsert, h0, ih2]

theorem length_dictInsert_of_none {α : Type} (l : List (String × α)) (k : String) (v : α)
    (h : alookup l k = none) : (dictInsert l k v).length = l.length + 1 := by
  have := keysOf_dictInsert_of_none l k v h
  have h1 : (keysOf (dictInsert l k v)).length = (keysOf l ++ [k]).length := by rw [this]
  simpa [keysOf] using h1

theorem length_dictInsert_le {α : Type} (l : List (String × α)) (k : String) (v : α) :
    (dictInsert l k v).length ≤ l.length + 1 := by
  induction l with
  | nil => simp [dictInsert]
  | cons p t ih =>
    obtain ⟨k0, v0⟩ := p
    by_cases h : k0 = k <;> simp [dictInsert, h] <;> omega

theorem length_dictErase_le {α : Type} (l : List (String × α)) (k : String) :
    (dictErase l k).length ≤ l.length := by
  induction l with
  | nil => simp [dictErase]
  | cons p t ih =>
    obtain ⟨k0, v0⟩ := p
    by_cases h : k0 = k <;> simp [dictErase, h] <;> omega

theorem dictErase_cons_self {α : Type} (k : String) (v : α) (t : List (String × α)) :
    dictErase ((k, v) :: t) k = dictErase t k := by
  simp [dictErase]

theorem dictErase_of_not_mem {α : Type} (l : List (String × α)) (k : String)
    (h : k ∉ keysOf l) : dictErase l k = l := by
  induction l with
  | nil => simp [dictErase]
  | cons p t ih =>
    obtain ⟨k0, v0⟩ := p
    simp only [keysOf, List.map_cons, List.mem_cons] at h
    push_neg at h
    simp [dictErase, Ne.symm h.1, ih (by simpa [keysOf] using h.2)]

/-! Claim theorems: name resolution, failure propagation, cache hits. -/

/-- C4: `_map_model_name` is a pure total function: an absent or empty
requested name resolves to the configured default; a name containing
(case-insensitively) one of the fixed canonical substring patterns is
returned unchanged; a name whose lowercasing is a key of the static
mapping table resolves to the mapped canonical value; any other name is
returned unchanged — no branch fails. -/
theorem C4_resolve_cases (d : String) :
    (map_model_name d none = d ∧ map_model_name d (some "") = d) ∧
    (∀ name, name ≠ "" → containsPattern name = true →
      map_model_name d (some name) = name) ∧
    (∀ name v, alookup model_name_map (lowerStr name) = some v →
      map_model_name d (some name) = v) ∧
    (∀ name, name ≠ "" → containsPattern name = false →
      alookup model_name_map (lowerStr name) = none →
      map_model_name d (some name) = name) := by
  refine ⟨⟨rfl, rfl⟩, ?_, ?_, ?_⟩
  · intro name hne hcp
    simp [map_model_name, hne, hcp]
  · intro name v h
    have hne : name ≠ "" := by
      intro he
      subst he
      have hnone : alookup model_name_map (lowerStr "") = none := by decide
      rw [hnone] at h
      simp at h
    have hmem : lowerStr name ∈ keysOf model_name_map := alookup_some_mem h
    have hcp : containsPattern name = false := by
      simp only [keysOf, model_name_map, List.map_cons, List.map_nil,
        List.mem_cons, List.not_mem_nil, or_false] at hmem
      rcases hmem with h1 | h1 | h1 | h1 <;>
        · unfold containsPattern
          rw [h1]
          decide
    simp [map_model_name, hne, hcp, h]
  · intro name hne hcp hlk
    simp [map_model_name, hne, hcp, hlk]

/-- Witness for C4 at concrete inputs: a table key maps to its canonical
value, a canonical-pattern name passes through, an unknown name passes
through. -/
theorem C4_witness :
    map_model_name "all-MiniLM-L6-v2" (some "text-embedding-ada-002") = "all-MiniLM-L6-v2" ∧
    map_model_name "all-MiniLM-L6-v2" (some "all-mpnet-base-v2") = "all-mpnet-base-v2" ∧
    map_model_name "all-MiniLM-L6-v2" (some "mystery-model") = "mystery-model" :=
  ⟨(C4_resolve_cases "all-MiniLM-L6-v2").2.2.1 "text-embedding-ada-002" "all-MiniLM-L6-v2" (by decide),
   (C4_resolve_cases "all-MiniLM-L6-v2").2.1 "all-mpnet-base-v2" (by decide) (by decide),
   (C4_resolve_cases "all-MiniLM-L6-v2").2.2.2 "mystery-model" (by decide) (by decide) (by decide)⟩

/-- C7: when the provider fails to construct the handle for a model name,
`load_model` returns the typed load failure and both cache dicts are
exactly as before the call — no entry for that name is inserted. -/
theorem C7_load_failure_cache_unchanged (loader : Loader) (cuda : Bool)
    (mm : ModelManager) (name : String)
    (hld : loader name (effDevice mm.device cuda) = none) :
    (load_model loader cuda mm name).1 = .error (.loadFailure name) ∧
    ((load_model loader cuda mm name).2).models = mm.models ∧
    ((load_model loader cuda mm name).2).model_info = mm.model_info := by
  simp [load_model, hld]

/-- Witness for C7: an always-failing provider on a fresh manager. -/
theorem C7_witness :
    ((fun (_ : String) (_ : String) => (none : Option Model)) "m1"
      (effDevice (initManager 1 "cpu").device false) = none) ∧
    ((load_model (fun _ _ => none) false (initManager 1 "cpu") "m1").1 =
      .error (.loadFailure "m1") ∧
    ((load_model (fun _ _ => none) false (initManager 1 "cpu") "m1").2).models =
      (initManager 1 "cpu").models ∧
    ((load_model (fun _ _ => none) false (initManager 1 "cpu") "m1").2).model_info =
      (initManager 1 "cpu").model_info) :=
  ⟨rfl, C7_load_failure_cache_unchanged (fun _ _ => none) false (initManager 1 "cpu") "m1" rfl⟩

/-- C8: when a name is already cached, `get_model` returns the cached
instance and leaves the state unchanged, so two consecutive calls return
the same underlying model; moreover the result does not depend on the
provider at all — no load is performed. -/
theorem C8_cache_hit_idempotent (loader : Loader) (cuda : Bool) (d : String)
    (mm : ModelManager) (name : String) (m : Model)
    (hne : name ≠ "") (hhit : alookup mm.models name = some m) :
    get_model loader cuda d mm (some name) = (.ok m, mm) ∧
    get_model loader cuda d ((get_model loader cuda d mm (some name)).2) (some name) =
      (.ok m, mm) ∧
    ∀ loader2 : Loader, get_model loader2 cuda d mm (some name) = (.ok m, mm) := by
  have h1 : ∀ L : Loader, get_model L cuda d mm (some name) = (.ok m, mm) := by
    intro L
    simp [get_model, hne, hhit]
  refine ⟨h1 loader, ?_, h1⟩
  rw [h1 loader]
  exact h1 loader

/-- Witness for C8: a manager holding one cached model, probed with a
provider that could never load anything. -/
theorem C8_witness :
    ("m1" : String) ≠ "" ∧
    alookup (ModelManager.mk [("m1", ⟨7, 3, 5⟩)] [] 1 "cpu").models "m1" = some ⟨7, 3, 5⟩ ∧
    get_model (fun _ _ => none) false "d" (ModelManager.mk [("m1", ⟨7, 3, 5⟩)] [] 1 "cpu")
      (some "m1") = (.ok ⟨7, 3, 5⟩, ModelManager.mk [("m1", ⟨7, 3, 5⟩)] [] 1 "cpu") :=
  ⟨by decide, rfl,
   (C8_cache_hit_idempotent (fun _ _ => none) false "d"
     (ModelManager.mk [("m1", ⟨7, 3, 5⟩)] [] 1 "cpu") "m1" ⟨7, 3, 5⟩ (by decide) rfl).1⟩

/-- C9: the empty batch is rejected with a validation failure and the
manager state is returned unchanged; the provider, the requested name and
the cache are never consulted (the result is uniform in all of them). -/
theorem C9_empty_batch_validation {V : Type} (loader : Loader) (cuda : Bool)
    (enc : Model → Bool → String → List V) (cfg : SvcConfig) (mm : ModelManager)
    (name? : Option String) (nz : Bool) :
    generate_embeddings_batch loader cuda enc cfg mm [] name? nz =
      (.error .validationFailure, mm) := rfl

/-! Size bookkeeping of the manager operations, for the cache bound. -/

theorem dictInsert_ne_nil {α : Type} (l : List (String × α)) (k : String) (v : α) :
    dictInsert l k v ≠ [] := by
  cases l with
  | nil => simp [dictInsert]
  | cons p t =>
    obtain ⟨k0, v0⟩ := p
    by_cases h : k0 = k <;> simp [dictInsert, h]

theorem cleanup_cache_length_lt (mm : ModelManager) (hne : mm.models ≠ []) :
    ((cleanup_cache mm).models).length < mm.models.length := by
  cases hmm : mm.models with
  | nil => exact absurd hmm hne
  | cons p t =>
    obtain ⟨k0, v0⟩ := p
    have h1 : (cleanup_cache mm).models = dictErase mm.models k0 := by
      unfold cleanup_cache
      rw [hmm]
    rw [h1, hmm, dictErase_cons_self]
    have h2 := length_dictErase_le t k0
    simp only [List.length_cons]
    omega

theorem cleanup_cache_max (mm : ModelManager) :
    (cleanup_cache mm).max_cache_size = mm.max_cache_size := by
  unfold cleanup_cache
  split <;> rfl

theorem load_model_size_le (loader : Loader) (cuda : Bool) (mm : ModelManager)
    (n : String) (h : mm.models.length ≤ mm.max_cache_size) :
    ((load_model loader cuda mm n).2).models.length ≤ mm.max_cache_size ∧
    ((load_model loader cuda mm n).2).max_cache_size = mm.max_cache_size := by
  simp only [load_model]
  cases hld : loader n (effDevice mm.device cuda) with
  | none => exact ⟨h, rfl⟩
  | some model =>
    by_cases hgt : (dictInsert mm.models n model).length > mm.max_cache_size
    · simp only [if_pos hgt]
      have hne : (dictInsert mm.models n model) ≠ [] := dictInsert_ne_nil _ _ _
      have hlt := cleanup_cache_length_lt
        { mm with models := dictInsert mm.models n model,
                  model_info := dictInsert mm.model_info n
                    ⟨n, model.dims, model.maxSeq, effDevice mm.device cuda⟩,
                  device := effDevice mm.device cuda } hne
      have hins := length_dictInsert_le mm.models n model
      constructor
      · simp only at hlt
        omega
      · rw [cleanup_cache_max]
    · simp only [if_neg hgt]
      exact ⟨Nat.le_of_not_lt hgt, trivial⟩

theorem get_model_size_le (loader : Loader) (cuda : Bool) (d : String)
    (mm : ModelManager) (name? : Option String)
    (h : mm.models.length ≤ mm.max_cache_size) :
    ((get_model loader cuda d mm name?).2).models.length ≤ mm.max_cache_size ∧
    ((get_model loader cuda d mm name?).2).max_cache_size = mm.max_cache_size := by
  simp only [get_model]
  generalize (match name? with
    | none => d
    | some n => if n = "" then d else n) = nm
  cases halk : alookup mm.models nm with
  | some m => exact ⟨h, rfl⟩
  | none => exact load_model_size_le loader cuda mm nm h

/-- C1: starting from a fresh manager of capacity K with K at least 1,
after any sequence of `get_model` requests the number of cached model
entries is at most K. -/
theorem C1_cache_size_invariant (loader : Loader) (cuda : Bool) (d dev : String)
    (K : Nat) (hK : 1 ≤ K) (reqs : List (Option String)) :
    ((runGets loader cuda d (initManager K dev) reqs).models).length ≤ K := by
  suffices h : ∀ mm : ModelManager, mm.models.length ≤ mm.max_cache_size →
      mm.max_cache_size = K →
      ((runGets loader cuda d mm reqs).models).length ≤ K ∧
      (runGets loader cuda d mm reqs).max_cache_size = K by
    exact (h (initManager K dev) (by simp [initManager]) rfl).1
  induction reqs with
  | nil =>
    intro mm h1 h2
    exact ⟨h2 ▸ h1, h2⟩
  | cons r rs ih =>
    intro mm h1 h2
    have step := get_model_size_le loader cuda d mm r h1
    simp only [runGets, List.foldl_cons] at *
    exact ih _ (step.2 ▸ step.1) (step.2.trans h2)

/-- Witness for C1: capacity 1, four requests, an always-succeeding
provider; at most one entry remains. -/
theorem C1_witness :
    1 ≤ 1 ∧
    ((runGets (fun _ _ => some ⟨7, 3, 5⟩) false "d" (initManager 1 "cpu")
      [some "a", some "b", none, some "a"]).models).length ≤ 1 :=
  ⟨Nat.le_refl 1,
   C1_cache_size_invariant (fun _ _ => some ⟨7, 3, 5⟩) false "d" "cpu" 1
     (Nat.le_refl 1) [some "a", some "b", none, some "a"]⟩

/-! Metadata-key invariant: `model_info` keys are always `models` keys. -/

/-- Keys of the first dict are a subset of the keys of the second. -/
def keysSub {α β : Type} (l1 : List (String × α)) (l2 : List (String × β)) : Prop :=
  ∀ k, (alookup l1 k).isSome → (alookup l2 k).isSome

theorem keysSub_insert {α β : Type} {l1 : List (String × α)} {l2 : List (String × β)}
    (h : keysSub l1 l2) (n : String) (v1 : α) (v2 : β) :
    keysSub (dictInsert l1 n v1) (dictInsert l2 n v2) := by
  intro k hk
  by_cases hkn : k = n
  · subst hkn
    simp [alookup_dictInsert_self]
  · rw [alookup_dictInsert_ne _ _ _ _ hkn] at hk
    rw [alookup_dictInsert_ne _ _ _ _ hkn]
    exact h k hk

theorem keysSub_erase {α β : Type} {l1 : List (String × α)} {l2 : List (String × β)}
    (h : keysSub l1 l2) (n : String) :
    keysSub (dictErase l1 n) (dictErase l2 n) := by
  intro k hk
  by_cases hkn : k = n
  · subst hkn
    rw [alookup_dictErase_self] at hk
    simp at hk
  · rw [alookup_dictErase_ne _ _ _ hkn] at hk
    rw [alookup_dictErase_ne _ _ _ hkn]
    exact h k hk

/-- Invariant of C10: every key of `model_info` is a key of `models`. -/
def infoInv (mm : ModelManager) : Prop :=
  keysSub mm.model_info mm.models

theorem infoInv_cleanup (mm : ModelManager) (h : infoInv mm) :
    infoInv (cleanup_cache mm) := by
  unfold cleanup_cache
  cases hmm : mm.models with
  | nil => exact h
  | cons p t =>
    obtain ⟨k0, v0⟩ := p
    intro k hk
    have h2 := keysSub_erase h k0 k hk
    rw [hmm] at h2
    exact h2

theorem infoInv_load (loader : Loader) (cuda : Bool) (mm : ModelManager)
    (n : String) (h : infoInv mm) : infoInv ((load_model loader cuda mm n).2) := by
  simp only [load_model]
  cases hld : loader n (effDevice mm.device cuda) with
  | none => exact h
  | some model =>
    by_cases hgt : (dictInsert mm.models n model).length > mm.max_cache_size
    · simp only [if_pos hgt]
      exact infoInv_cleanup _ (keysSub_insert h n _ _)
    · simp only [if_neg hgt]
      exact keysSub_insert h n _ _

theorem infoInv_get (loader : Loader) (cuda : Bool) (d : String)
    (mm : ModelManager) (name? : Option String) (h : infoInv mm) :
    infoInv ((get_model loader cuda d mm name?).2) := by
  simp only [get_model]
  generalize (match name? with
    | none => d
    | some n => if n = "" then d else n) = nm
  cases halk : alookup mm.models nm with
  | some m => exact h
  | none => exact infoInv_load loader cuda mm nm h

/-- C10: every operation of the manager preserves the invariant that each
key of the metadata dict `model_info` is also a key of the model dict
`models` — metadata never exists for a model that is not cached. -/
theorem C10_info_keys_subset (loader : Loader) (cuda : Bool) (d : String)
    (mm : ModelManager) (h : infoInv mm) :
    (∀ name?, infoInv ((get_model loader cuda d mm name?).2)) ∧
    (∀ n, infoInv ((load_model loader cuda mm n).2)) ∧
    infoInv (cleanup_cache mm) ∧
    (∀ n, infoInv ((unload_model mm n).2)) := by
  refine ⟨fun name? => infoInv_get loader cuda d mm name? h,
          fun n => infoInv_load loader cuda mm n h,
          infoInv_cleanup mm h, fun n => ?_⟩
  unfold unload_model
  by_cases hn : (alookup mm.models n).isSome
  · simp only [if_pos hn]
    exact keysSub_erase h n
  · simp only [if_neg hn]
    exact h

/-- Witness for C10: a fresh manager trivially satisfies the invariant,
and one successful `get_model` keeps it. -/
theorem C10_witness :
    infoInv (initManager 1 "cpu") ∧
    infoInv ((get_model (fun _ _ => some ⟨7, 3, 5⟩) false "d" (initManager 1 "cpu")
      (some "a")).2) :=
  have h0 : infoInv (initManager 1 "cpu") := by
    intro k hk
    simp [initManager, alookup] at hk
  ⟨h0, (C10_info_keys_subset (fun _ _ => some ⟨7, 3, 5⟩) false "d"
    (initManager 1 "cpu") h0).1 (some "a")⟩

/-! Chunking, truncation and fallback of the embedding service. -/

theorem chunkAux_flatten {α : Type} (bs : Nat) (hbs : 0 < bs) :
    ∀ (fuel : Nat) (l : List α), l.length ≤ fuel → (chunkAux bs fuel l).flatten = l := by
  intro fuel
  induction fuel with
  | zero =>
    intro l hl
    cases l with
    | nil => rfl
    | cons x xs => simp at hl
  | succ fuel ih =>
    intro l hl
    cases l with
    | nil => rfl
    | cons x xs =>
      simp only [List.length_cons] at hl
      simp only [chunkAux, List.flatten_cons]
      rw [ih ((x :: xs).drop bs) (by simp only [List.length_drop, List.length_cons]; omega)]
      exact List.take_append_drop bs (x :: xs)

theorem chunkList_flatten {α : Type} (bs : Nat) (hbs : 0 < bs) (l : List α) :
    (chunkList bs l).flatten = l :=
  chunkAux_flatten bs hbs l.length l (Nat.le_refl _)

theorem chunk_map_flatten {α β : Type} (bs : Nat) (hbs : 0 < bs) (l : List α) (f : α → β) :
    ((chunkList bs l).map (List.map f)).flatten = l.map f := by
  rw [← List.map_flatten, chunkList_flatten bs hbs]

theorem single_ok_of_resolve {V : Type} (loader : Loader) (cuda : Bool)
    (enc : Model → Bool → String → List V) (cfg : SvcConfig) (mm : ModelManager)
    (text : String) (name? : Option String) (nz : Bool)
    (m : Model) (resolved : String) (mm1 : ModelManager)
    (hres : resolve_model loader cuda cfg mm name? = (.ok (m, resolved), mm1)) :
    generate_embedding loader cuda enc cfg mm text name? nz =
      (.ok (enc m nz (truncate_text cfg.max_text_length text), resolved,
        (enc m nz (truncate_text cfg.max_text_length text)).length), mm1) := by
  simp only [generate_embedding, hres]

theorem single_err_of_resolve {V : Type} (loader : Loader) (cuda : Bool)
    (enc : Model → Bool → String → List V) (cfg : SvcConfig) (mm : ModelManager)
    (text : String) (name? : Option String) (nz : Bool)
    (err : SvcErr) (mm1 : ModelManager)
    (hres : resolve_model loader cuda cfg mm name? = (.error err, mm1)) :
    generate_embedding loader cuda enc cfg mm text name? nz = (.error err, mm1) := by
  simp only [generate_embedding, hres]

theorem batch_ok_of_resolve {V : Type} (loader : Loader) (cuda : Bool)
    (enc : Model → Bool → String → List V) (cfg : SvcConfig) (mm : ModelManager)
    (texts : List String) (name? : Option String) (nz : Bool)
    (m : Model) (resolved : String) (mm1 : ModelManager)
    (hbs : 0 < cfg.batch_size) (hne : texts ≠ [])
    (hres : resolve_model loader cuda cfg mm name? = (.ok (m, resolved), mm1)) :
    generate_embeddings_batch loader cuda enc cfg mm texts name? nz =
      (.ok (texts.map (fun t => enc m nz (truncate_text cfg.max_text_length t)), resolved,
        match texts.map (fun t => enc m nz (truncate_text cfg.max_text_length t)) with
        | [] => 0
        | v :: _ => v.length), mm1) := by
  have hie : texts.isEmpty = false := by
    cases texts with
    | nil => exact absurd rfl hne
    | cons a b => rfl
  simp only [generate_embeddings_batch, hie, Bool.false_eq_true, if_false, hres]
  rw [show (fun b => b.map (enc m nz)) = List.map (enc m nz) from rfl]
  rw [chunk_map_flatten cfg.batch_size hbs (texts.map (truncate_text cfg.max_text_length))
    (enc m nz)]
  simp only [List.map_map, Function.comp_def]

theorem batch_err_of_resolve {V : Type} (loader : Loader) (cuda : Bool)
    (enc : Model → Bool → String → List V) (cfg : SvcConfig) (mm : ModelManager)
    (texts : List String) (name? : Option String) (nz : Bool)
    (err : SvcErr) (mm1 : ModelManager)
    (hne : texts ≠ [])
    (hres : resolve_model loader cuda cfg mm name? = (.error err, mm1)) :
    generate_embeddings_batch loader cuda enc cfg mm texts name? nz = (.error err, mm1) := by
  have hie : texts.isEmpty = false := by
    cases texts with
    | nil => exact absurd rfl hne
    | cons a b => rfl
  simp only [generate_embeddings_batch, hie, Bool.false_eq_true, if_false, hres]

theorem resolve_model_fallback_ok (loader : Loader) (cuda : Bool) (cfg : SvcConfig)
    (mm : ModelManager) (name? : Option String) (err : SvcErr) (m : Model)
    (hm : (get_model loader cuda cfg.default_model_name mm
      (some (map_model_name cfg.default_model_name name?))).1 = .error err)
    (hne : map_model_name cfg.default_model_name name? ≠ cfg.default_model_name)
    (hd : (get_model loader cuda cfg.default_model_name
      ((get_model loader cuda cfg.default_model_name mm
        (some (map_model_name cfg.default_model_name name?))).2)
      (some cfg.default_model_name)).1 = .ok m) :
    resolve_model loader cuda cfg mm name? =
      (.ok (m, cfg.default_model_name),
       (get_model loader cuda cfg.default_model_name
        ((get_model loader cuda cfg.default_model_name mm
          (some (map_model_name cfg.default_model_name name?))).2)
        (some cfg.default_model_name)).2) := by
  simp only [resolve_model]
  rcases hgm : get_model loader cuda cfg.default_model_name mm
      (some (map_model_name cfg.default_model_name name?)) with ⟨r1, mmA⟩
  rw [hgm] at hm hd
  simp only at hm hd ⊢
  subst hm
  simp only [if_neg hne]
  rcases hgd : get_model loader cuda cfg.default_model_name mmA
      (some cfg.default_model_name) with ⟨r2, mmB⟩
  rw [hgd] at hd
  simp only at hd ⊢
  subst hd
  rfl

theorem resolve_model_default_err (loader : Loader) (cuda : Bool) (cfg : SvcConfig)
    (mm : ModelManager) (name? : Option String) (err : SvcErr)
    (heq : map_model_name cfg.default_model_name name? = cfg.default_model_name)
    (hm : (get_model loader cuda cfg.default_model_name mm
      (some (map_model_name cfg.default_model_name name?))).1 = .error err) :
    resolve_model loader cuda cfg mm name? =
      (.error err, (get_model loader cuda cfg.default_model_name mm
        (some (map_model_name cfg.default_model_name name?))).2) := by
  simp only [resolve_model]
  rcases hgm : get_model loader cuda cfg.default_model_name mm
      (some (map_model_name cfg.default_model_name name?)) with ⟨r1, mmA⟩
  rw [hgm] at hm
  simp only at hm ⊢
  subst hm
  simp only [if_pos heq]

/-- C2: when loading the resolved canonical name fails: if that name
differs from the configured default, the call retries with the default
model and — its load succeeding — returns a successful result reporting
the default's name as the resolved model name, at both the single and the
batch entry point; if the resolved name equals the default, the load
failure propagates as the result with no further retry. -/
theorem C2_fallback_policy {V : Type} (loader : Loader) (cuda : Bool)
    (enc : Model → Bool → String → List V) (cfg : SvcConfig) (mm : ModelManager)
    (text : String) (texts : List String) (name? : Option String) (nz : Bool)
    (err : SvcErr) (m : Model) :
    ((get_model loader cuda cfg.default_model_name mm
        (some (map_model_name cfg.default_model_name name?))).1 = .error err →
      map_model_name cfg.default_model_name name? ≠ cfg.default_model_name →
      (get_model loader cuda cfg.default_model_name
        ((get_model loader cuda cfg.default_model_name mm
          (some (map_model_name cfg.default_model_name name?))).2)
        (some cfg.default_model_name)).1 = .ok m →
      (∃ v n, (generate_embedding loader cuda enc cfg mm text name? nz).1 =
        .ok (v, cfg.default_model_name, n)) ∧
      (texts ≠ [] → 0 < cfg.batch_size →
        ∃ vs n, (generate_embeddings_batch loader cuda enc cfg mm texts name? nz).1 =
          .ok (vs, cfg.default_model_name, n))) ∧
    ((get_model loader cuda cfg.default_model_name mm
        (some (map_model_name cfg.default_model_name name?))).1 = .error err →
      map_model_name cfg.default_model_name name? = cfg.default_model_name →
      (generate_embedding loader cuda enc cfg mm text name? nz).1 = .error err ∧
      (texts ≠ [] →
        (generate_embeddings_batch loader cuda enc cfg mm texts name? nz).1 = .error err)) := by
  constructor
  · intro hm hne hd
    have hres := resolve_model_fallback_ok loader cuda cfg mm name? err m hm hne hd
    constructor
    · exact ⟨enc m nz (truncate_text cfg.max_text_length text),
        (enc m nz (truncate_text cfg.max_text_length text)).length,
        by rw [single_ok_of_resolve loader cuda enc cfg mm text name? nz m
          cfg.default_model_name _ hres]⟩
    · intro hne2 hbs
      exact ⟨texts.map (fun t => enc m nz (truncate_text cfg.max_text_length t)),
        (match texts.map (fun t => enc m nz (truncate_text cfg.max_text_length t)) with
          | [] => 0
          | v :: _ => v.length),
        by rw [batch_ok_of_resolve loader cuda enc cfg mm texts name? nz m
          cfg.default_model_name _ hbs hne2 hres]⟩
  · intro hm heq
    have hres := resolve_model_default_err loader cuda cfg mm name? err heq hm
    refine ⟨?_, fun hne2 => ?_⟩
    · rw [single_err_of_resolve loader cuda enc cfg mm text name? nz err _ hres]
    · rw [batch_err_of_resolve loader cuda enc cfg mm texts name? nz err _ hne2 hres]

/-- Witness for C2: a provider that only loads the default "d": requesting
"weird" falls back to "d" and reports "d"; with a provider that loads
nothing, requesting "d" itself fails with the load failure. -/
theorem C2_witness :
    (∃ v n, (generate_embedding
      (fun nm _ => if nm = "d" then some ⟨7, 3, 5⟩ else none) false
      (fun _ _ t => [t.length]) ⟨"d", 2, 5⟩ (initManager 1 "cpu")
      "hi" (some "weird") false).1 = .ok (v, "d", n)) ∧
    (generate_embedding (fun _ _ => none) false
      (fun _ _ t => [t.length]) ⟨"d", 2, 5⟩ (initManager 1 "cpu")
      "hi" (some "d") false).1 = .error (.loadFailure "d") :=
  ⟨((C2_fallback_policy (fun nm _ => if nm = "d" then some ⟨7, 3, 5⟩ else none) false
      (fun _ _ t => [t.length]) ⟨"d", 2, 5⟩ (initManager 1 "cpu") "hi" ["hi"]
      (some "weird") false (.loadFailure "weird") ⟨7, 3, 5⟩).1 rfl (by decide) rfl).1,
   (((C2_fallback_policy (fun _ _ => none) false
      (fun _ _ t => [t.length]) ⟨"d", 2, 5⟩ (initManager 1 "cpu") "hi" ["hi"]
      (some "d") false (.loadFailure "d") ⟨7, 3, 5⟩).2 rfl rfl).1)⟩

/-- C5: under a successful model resolution, the batch call returns one
vector per input text in input order: the output list is exactly the map
of the truncated inputs through the encoder, so output i corresponds to
input i regardless of the configured chunk size. -/
theorem C5_batch_order_preserved {V : Type} (loader : Loader) (cuda : Bool)
    (enc : Model → Bool → String → List V) (cfg : SvcConfig) (mm : ModelManager)
    (texts : List String) (name? : Option String) (nz : Bool)
    (m : Model) (resolved : String) (mm1 : ModelManager)
    (hbs : 0 < cfg.batch_size) (hne : texts ≠ [])
    (hres : resolve_model loader cuda cfg mm name? = (.ok (m, resolved), mm1)) :
    (generate_embeddings_batch loader cuda enc cfg mm texts name? nz).1 =
      .ok (texts.map (fun t => enc m nz (truncate_text cfg.max_text_length t)), resolved,
        match texts.map (fun t => enc m nz (truncate_text cfg.max_text_length t)) with
        | [] => 0
        | v :: _ => v.length) ∧
    (texts.map (fun t => enc m nz (truncate_text cfg.max_text_length t))).length =
      texts.length ∧
    ∀ i, ∀ hi : i < texts.length,
      ∀ hi2 : i < (texts.map (fun t => enc m nz (truncate_text cfg.max_text_length t))).length,
      (texts.map (fun t => enc m nz (truncate_text cfg.max_text_length t))).get ⟨i, hi2⟩ =
        enc m nz (truncate_text cfg.max_text_length (texts.get ⟨i, hi⟩)) := by
  refine ⟨?_, by simp, ?_⟩
  · rw [batch_ok_of_resolve loader cuda enc cfg mm texts name? nz m resolved mm1 hbs hne hres]
  · intro i hi hi2
    simp

/-- Witness for C5: three texts, chunk size 2, with the encoder sending a
text to the one-element list holding its length: the outputs align with
the inputs across the chunk boundary. -/
theorem C5_witness :
    (generate_embeddings_batch (fun _ _ => some ⟨7, 3, 5⟩) false
      (fun _ _ t => [t.length]) ⟨"d", 2, 3⟩ (initManager 1 "cpu")
      ["a", "abcdef", "ab"] none false).1 = .ok ([[1], [3], [2]], "d", 1) := by
  have h := C5_batch_order_preserved (fun _ _ => some ⟨7, 3, 5⟩) false
    (fun _ _ t => [t.length]) ⟨"d", 2, 3⟩ (initManager 1 "cpu")
    ["a", "abcdef", "ab"] none false ⟨7, 3, 5⟩ "d"
    ⟨[("d", ⟨7, 3, 5⟩)], [("d", ⟨"d", 3, 5, "cpu"⟩)], 1, "cpu"⟩
    (by decide) (by decide) rfl
  rw [h.1]
  rfl

/-- C6: the text passed to inference is the truncation of the input: a
text longer than the configured maximum is cut to exactly its first
`max_text_length` characters, a text within the limit passes unmodified —
at the single entry point and for every text of a batch. -/
theorem C6_truncation_rule {V : Type} (loader : Loader) (cuda : Bool)
    (enc : Model → Bool → String → List V) (cfg : SvcConfig) (mm : ModelManager)
    (text : String) (name? : Option String) (nz : Bool)
    (m : Model) (resolved : String) (mm1 : ModelManager)
    (hres : resolve_model loader cuda cfg mm name? = (.ok (m, resolved), mm1)) :
    (cfg.max_text_length < text.length →
      truncate_text cfg.max_text_length text = text.take cfg.max_text_length) ∧
    (text.length ≤ cfg.max_text_length →
      truncate_text cfg.max_text_length text = text) ∧
    (generate_embedding loader cuda enc cfg mm text name? nz).1 =
      .ok (enc m nz (truncate_text cfg.max_text_length text), resolved,
        (enc m nz (truncate_text cfg.max_text_length text)).length) ∧
    (∀ texts : List String, texts ≠ [] → 0 < cfg.batch_size →
      (generate_embeddings_batch loader cuda enc cfg mm texts name? nz).1 =
        .ok (texts.map (fun t => enc m nz (truncate_text cfg.max_text_length t)), resolved,
          match texts.map (fun t => enc m nz (truncate_text cfg.max_text_length t)) with
          | [] => 0
          | v :: _ => v.length)) := by
  refine ⟨?_, ?_, ?_, ?_⟩
  · intro h
    simp [truncate_text, h]
  · intro h
    simp [truncate_text, Nat.not_lt.mpr h]
  · rw [single_ok_of_resolve loader cuda enc cfg mm text name? nz m resolved mm1 hres]
  · intro texts hne hbs
    rw [batch_ok_of_resolve loader cuda enc cfg mm texts name? nz m resolved mm1 hbs hne hres]

/-- Witness for C6: with maximum length 3, "abcdef" is processed as its
first three characters and "ab" unmodified. -/
theorem C6_witness :
    truncate_text 3 "abcdef" = "abc" ∧
    truncate_text 3 "ab" = "ab" ∧
    (generate_embedding (fun _ _ => some ⟨7, 3, 5⟩) false (fun _ _ t => [t.length])
      ⟨"d", 2, 3⟩ (initManager 1 "cpu") "abcdef" none false).1 = .ok ([3], "d", 1) := by
  have h1 := C6_truncation_rule (fun _ _ => some ⟨7, 3, 5⟩) false (fun _ _ t => [t.length])
    ⟨"d", 2, 3⟩ (initManager 1 "cpu") "abcdef" none false ⟨7, 3, 5⟩ "d"
    ⟨[("d", ⟨7, 3, 5⟩)], [("d", ⟨"d", 3, 5, "cpu"⟩)], 1, "cpu"⟩ rfl
  have h2 := C6_truncation_rule (fun _ _ => some ⟨7, 3, 5⟩) false (fun _ _ t => [t.length])
    ⟨"d", 2, 3⟩ (initManager 1 "cpu") "ab" none false ⟨7, 3, 5⟩ "d"
    ⟨[("d", ⟨7, 3, 5⟩)], [("d", ⟨"d", 3, 5, "cpu"⟩)], 1, "cpu"⟩ rfl
  refine ⟨?_, h2.2.1 (by decide), ?_⟩
  · rw [h1.1 (by decide)]
    rfl
  · rw [h1.2.2.1]
    rfl

/-! Eviction order: the cache keys form a sliding window over the load
sequence. -/

theorem dictInsert_eq_append {α : Type} (l : List (String × α)) (k : String) (v : α)
    (h : alookup l k = none) : dictInsert l k v = l ++ [(k, v)] := by
  induction l with
  | nil => simp [dictInsert]
  | cons p t ih =>
    obtain ⟨k0, v0⟩ := p
    simp only [alookup] at h
    by_cases h0 : k0 = k
    · simp [h0] at h
    · simp only [if_neg h0] at h
      simp [dictInsert, h0, ih h]

theorem keysOf_append {α : Type} (l1 l2 : List (String × α)) :
    keysOf (l1 ++ l2) = keysOf l1 ++ keysOf l2 := by
  simp [keysOf]

theorem get_model_fresh_no_evict (loader : Loader) (cuda : Bool) (d : String)
    (mm : ModelManager) (n : String) (m : Model)
    (hne : n ≠ "") (habs : alookup mm.models n = none)
    (hld : loader n (effDevice mm.device cuda) = some m)
    (hsz : mm.models.length + 1 ≤ mm.max_cache_size) :
    ((get_model loader cuda d mm (some n)).2).models = mm.models ++ [(n, m)] ∧
    ((get_model loader cuda d mm (some n)).2).max_cache_size = mm.max_cache_size := by
  have hlen := length_dictInsert_of_none mm.models n m habs
  have hcond : ¬ (dictInsert mm.models n m).length > mm.max_cache_size := by omega
  simp only [get_model, if_neg hne, habs, load_model, hld, hcond, if_false,
    if_neg hcond]
  exact ⟨dictInsert_eq_append mm.models n m habs, trivial⟩

theorem get_model_fresh_evict (loader : Loader) (cuda : Bool) (d : String)
    (mm : ModelManager) (k0 : String) (v0 : Model) (t : List (String × Model))
    (n : String) (m : Model)
    (hmm : mm.models = (k0, v0) :: t)
    (hne : n ≠ "") (habs : alookup mm.models n = none)
    (hld : loader n (effDevice mm.device cuda) = some m)
    (hnd : (keysOf mm.models).Nodup)
    (hsz : mm.max_cache_size < mm.models.length + 1) :
    ((get_model loader cuda d mm (some n)).2).models = t ++ [(n, m)] ∧
    ((get_model loader cuda d mm (some n)).2).max_cache_size = mm.max_cache_size := by
  have hlen := length_dictInsert_of_none mm.models n m habs
  have hcond : (dictInsert mm.models n m).length > mm.max_cache_size := by omega
  have hins : dictInsert mm.models n m = (k0, v0) :: (t ++ [(n, m)]) := by
    rw [dictInsert_eq_append mm.models n m habs, hmm]
    rfl
  have hk0n : k0 ≠ n := by
    rw [hmm] at habs
    simp only [alookup] at habs
    by_cases hc : k0 = n
    · simp [hc] at habs
    · exact hc
  have hk0t : k0 ∉ keysOf t := by
    rw [hmm] at hnd
    simp only [keysOf, List.map_cons, List.nodup_cons] at hnd
    exact fun hc => hnd.1 (by simpa [keysOf] using hc)
  have hk0out : k0 ∉ keysOf (t ++ [(n, m)]) := by
    rw [keysOf_append]
    simp only [keysOf, List.map_cons, List.map_nil, List.mem_append, List.mem_cons]
    rintro (hc | hc | hc)
    · exact hk0t hc
    · exact hk0n hc
    · exact (List.not_mem_nil k0) hc
  simp only [get_model, if_neg hne, habs, load_model, hld, if_pos hcond]
  constructor
  · show (cleanup_cache _).models = t ++ [(n, m)]
    unfold cleanup_cache
    simp only [hins]
    rw [dictErase_cons_self, dictErase_of_not_mem _ _ hk0out]
  · show (cleanup_cache _).max_cache_size = mm.max_cache_size
    rw [cleanup_cache_max]

theorem runGets_keys_suffix (loader : Loader) (cuda : Bool) (d : String) :
    ∀ (ns : List String) (mm : ModelManager),
    1 ≤ mm.max_cache_size →
    mm.models.length ≤ mm.max_cache_size →
    (keysOf mm.models ++ ns).Nodup →
    (∀ n ∈ ns, n ≠ "") →
    (∀ n ∈ ns, ∀ dv, (loader n dv).isSome) →
    keysOf ((runGets loader cuda d mm (ns.map some)).models) =
      (keysOf mm.models ++ ns).drop
        (mm.models.length + ns.length - mm.max_cache_size) := by
  intro ns
  induction ns with
  | nil =>
    intro mm hK hlen hnd hne hld
    simp only [List.map_nil, runGets, List.foldl_nil, List.append_nil,
      List.length_nil, Nat.add_zero]
    rw [Nat.sub_eq_zero_of_le hlen, List.drop_zero]
  | cons n ns ih =>
    intro mm hK hlen hnd hne hld
    have hsplit := List.nodup_append.mp hnd
    have hnn : n ≠ "" := hne n (List.mem_cons_self n ns)
    have hnabs : alookup mm.models n = none := by
      rw [alookup_eq_none]
      intro hmem
      exact hsplit.2.2 hmem (List.mem_cons_self n ns)
    obtain ⟨m, hm⟩ := Option.isSome_iff_exists.mp
      (hld n (List.mem_cons_self n ns) (effDevice mm.device cuda))
    have hstep : runGets loader cuda d mm ((n :: ns).map some) =
        runGets loader cuda d ((get_model loader cuda d mm (some n)).2) (ns.map some) := rfl
    rw [hstep]
    have hne2 : ∀ x ∈ ns, x ≠ "" := fun x hx => hne x (List.mem_cons_of_mem n hx)
    have hld2 : ∀ x ∈ ns, ∀ dv, (loader x dv).isSome :=
      fun x hx => hld x (List.mem_cons_of_mem n hx)
    by_cases hcase : mm.models.length + 1 ≤ mm.max_cache_size
    · obtain ⟨hmodels, hmax⟩ :=
        get_model_fresh_no_evict loader cuda d mm n m hnn hnabs hm hcase
      have hkeys2 : keysOf ((get_model loader cuda d mm (some n)).2).models =
          keysOf mm.models ++ [n] := by
        rw [hmodels, keysOf_append]
        rfl
      have hlen2 : ((get_model loader cuda d mm (some n)).2).models.length =
          mm.models.length + 1 := by
        rw [hmodels]
        simp
      have ihx := ih ((get_model loader cuda d mm (some n)).2)
        (hmax ▸ hK) (by omega)
        (by
          rw [hkeys2, List.append_assoc]
          simpa using hnd)
        hne2 hld2
      rw [hkeys2, hlen2, hmax] at ihx
      rw [ihx]
      have hlist : keysOf mm.models ++ n :: ns = (keysOf mm.models ++ [n]) ++ ns := by
        simp
      rw [hlist, List.length_cons,
        show mm.models.length + (ns.length + 1) - mm.max_cache_size =
          mm.models.length + 1 + ns.length - mm.max_cache_size from by omega]
    · have hlenK : mm.models.length = mm.max_cache_size := by omega
      cases hmm : mm.models with
      | nil =>
        rw [hmm] at hlenK
        simp at hlenK
        omega
      | cons p t =>
        obtain ⟨k0, v0⟩ := p
        obtain ⟨hmodels, hmax⟩ := get_model_fresh_evict loader cuda d mm k0 v0 t n m
          hmm hnn hnabs hm hsplit.1 (by omega)
        have hkeys2 : keysOf ((get_model loader cuda d mm (some n)).2).models =
            keysOf t ++ [n] := by
          rw [hmodels, keysOf_append]
          rfl
        have htlen : t.length + 1 = mm.max_cache_size := by
          rw [hmm] at hlenK
          simpa using hlenK
        have hlen2 : ((get_model loader cuda d mm (some n)).2).models.length =
            t.length + 1 := by
          rw [hmodels]
          simp
        have hndt : (keysOf t ++ n :: ns).Nodup := by
          rw [hmm] at hnd
          have hnd2 : (k0 :: (keysOf t ++ n :: ns)).Nodup := by
            simpa [keysOf] using hnd
          exact hnd2.of_cons
        have ihx := ih ((get_model loader cuda d mm (some n)).2)
          (hmax ▸ hK) (by omega)
          (by
            rw [hkeys2, List.append_assoc]
            simpa using hndt)
          hne2 hld2
        rw [hkeys2, hlen2, hmax,
          show t.length + 1 + ns.length - mm.max_cache_size = ns.length from by omega,
          List.append_assoc] at ihx
        rw [ihx]
        rw [show ((k0, v0) :: t).length + (n :: ns).length - mm.max_cache_size =
          ns.length + 1 from by simp only [List.length_cons]; omega]
        rw [show keysOf ((k0, v0) :: t) ++ n :: ns =
          k0 :: (keysOf t ++ ([n] ++ ns)) from by simp [keysOf]]
        rw [List.drop_succ_cons]

/-- C3: starting from a fresh manager of capacity K (at least 1), loading
K+1 distinct, successfully-loading model names in order m1, m2, ...
leaves a cache from which m1 is absent while each of the K later names is
present. -/
theorem C3_eviction_order (loader : Loader) (cuda : Bool) (d dev : String)
    (K : Nat) (hK : 1 ≤ K) (m1 : String) (rest : List String)
    (hlen : rest.length = K)
    (hnd : (m1 :: rest).Nodup)
    (hne : ∀ n ∈ m1 :: rest, n ≠ "")
    (hld : ∀ n ∈ m1 :: rest, ∀ dv, (loader n dv).isSome) :
    alookup ((runGets loader cuda d (initManager K dev)
      ((m1 :: rest).map some)).models) m1 = none ∧
    ∀ n ∈ rest, (alookup ((runGets loader cuda d (initManager K dev)
      ((m1 :: rest).map some)).models) n).isSome := by
  have hkeys := runGets_keys_suffix loader cuda d (m1 :: rest) (initManager K dev)
    hK (by simp [initManager]) (by simpa [initManager, keysOf] using hnd) hne hld
  have hdrop : (keysOf (initManager K dev).models ++ m1 :: rest).drop
      ((initManager K dev).models.length + (m1 :: rest).length -
        (initManager K dev).max_cache_size) = rest := by
    simp only [initManager, keysOf, List.map_nil, List.nil_append, List.length_nil,
      List.length_cons, hlen, Nat.zero_add]
    rw [show K + 1 - K = 1 from by omega]
    rfl
  rw [hdrop] at hkeys
  constructor
  · rw [alookup_eq_none, hkeys]
    exact (List.nodup_cons.mp hnd).1
  · intro n hn
    have hnot : ¬ alookup ((runGets loader cuda d (initManager K dev)
        ((m1 :: rest).map some)).models) n = none := by
      rw [alookup_eq_none, hkeys]
      exact fun hc => hc hn
    exact Option.ne_none_iff_isSome.mp hnot

/-- Witness for C3 at capacity 1 with names "a" then "b": after both
loads, "a" is evicted and "b" cached. -/
theorem C3_witness :
    alookup ((runGets (fun _ _ => some ⟨7, 3, 5⟩) false "d" (initManager 1 "cpu")
      (["a", "b"].map some)).models) "a" = none ∧
    ∀ n ∈ ["b"], (alookup ((runGets (fun _ _ => some ⟨7, 3, 5⟩) false "d"
      (initManager 1 "cpu") (["a", "b"].map some)).models) n).isSome :=
  C3_eviction_order (fun _ _ => some ⟨7, 3, 5⟩) false "d" "cpu" 1 (Nat.le_refl 1)
    "a" ["b"] rfl (by decide) (by decide) (fun n _ dv => rfl)
